import Mathlib

/-!
# osenv: typed environment getters with default fallback

A shallow embedding of `osenv.go` (package `osenv`) together with the parts of
the Go standard library it calls (`os.Getenv`, `strconv.Atoi`,
`strconv.ParseBool`, `errors.Join`, and `strconv.Itoa` for the round trip).

Modelling conventions
* A Go `string` is a finite sequence of bytes: `GoString := List (Fin 256)`.
  Byte arithmetic (`ch -= '0'`) is arithmetic of `Fin 256`, which wraps.
* Go's `int` has `intSize` bits (32 or 64, fixed by the platform); `intSize`
  is a parameter of every function that depends on it.  `int`/`int64` values
  are `Int`s reduced with `wrapInt`, `uint64` values are `Nat`s reduced
  `% 2 ^ 64`, exactly where the Go code performs the arithmetic.
* A Go `error` is `Option GoError` (`none` is `nil`).
* An `interface{}` value is a `GoAny`, a value tagged with its dynamic type.
* The process environment is a function from keys to optional values.
* Methods of a user-defined `Converter` are assumed to be pure and to return.
* `strconv.Atoi`, `ParseInt`, `ParseUint` (at base 10) and `ParseBool` follow
  the control flow of the Go standard library; `strconv.Itoa` and
  `FormatBool`, which only the round trip uses, follow their documented
  results.
-/

namespace Osenv

/-! ## Strings, errors and dynamic values -/

/-- A Go byte (`uint8`). -/
abbrev GoByte := Fin 256

/-- A Go string: an immutable sequence of bytes. -/
abbrev GoString := List GoByte

/-- The bytes (UTF-8) of a string literal of the Go source. -/
def goStr (s : String) : GoString :=
  s.toList.flatMap fun c => (String.utf8EncodeChar c).map fun b => b.val

/-- The two sentinel errors of `strconv`: `ErrSyntax` and `ErrRange`. -/
inductive NumErrKind
  | ErrSyntax
  | ErrRange
  deriving DecidableEq, Repr

/-- A non-nil Go `error` value.  `numError` is `*strconv.NumError`,
`joinError` is the wrapper built by `errors.Join`, `custom` is any other
error a user-defined converter may produce. -/
inductive GoError
  | numError (func : String) (num : GoString) (err : NumErrKind)
  | joinError (errs : List GoError)
  | custom (msg : String)

/-- Go's `errors.Join`: nil arguments are discarded; the result is nil when
every argument is nil, and a `joinError` wrapping the others otherwise. -/
def errorsJoin (errs : List (Option GoError)) : Option GoError :=
  match errs.filterMap id with
  | [] => none
  | es => some (GoError.joinError es)

/-- A value of type `interface{}` / `any`: a value with its dynamic type.
`other` stands for a value of any user-defined dynamic type. -/
inductive GoAny
  | nil
  | int (n : Int)
  | bool (b : Bool)
  | string (s : GoString)
  | other (typeName : String) (repr : GoString)
  deriving DecidableEq

/-- The process environment: the value of each variable, when set. -/
abbrev Env := GoString → Option GoString

/-- Go's `os.Getenv`: the value of the variable, which is empty when the
variable is not present. -/
def Getenv (env : Env) (key : GoString) : GoString :=
  match env key with
  | some v => v
  | none => []

/-! ## Machine integers -/

/-- Reduction of an integer to the two's-complement range of `w` bits. -/
def wrapInt (w : Nat) (x : Int) : Int :=
  (x + 2 ^ (w - 1)) % 2 ^ w - 2 ^ (w - 1)

/-- Reduction of a natural number to `uint64`. -/
def wrapU64 (x : Nat) : Nat := x % 2 ^ 64

/-! ## strconv -/

/-- The `strconv` helper `syntaxError(fn, str)`. -/
def syntaxError (fn : String) (str : GoString) : GoError :=
  GoError.numError fn str NumErrKind.ErrSyntax

/-- The `strconv` helper `rangeError(fn, str)`. -/
def rangeError (fn : String) (str : GoString) : GoError :=
  GoError.numError fn str NumErrKind.ErrRange

/-- The `strconv` helper `lower(c)`: `c | ('x' - 'X')`. -/
def lower (c : GoByte) : GoByte := c ||| 32

/-- The digit value of a byte in `ParseUint`'s loop (the `switch` on `c`,
with `base0` false): `none` is the `default` branch (a syntax error). -/
def digitOf (c : GoByte) : Option GoByte :=
  if 48 ≤ c ∧ c ≤ 57 then some (c - 48)
  else if 97 ≤ lower c ∧ lower c ≤ 122 then some (lower c - 97 + 10)
  else none

/-- The constant `maxUint64`. -/
def maxUint64 : Nat := 2 ^ 64 - 1

/-- The loop of `strconv.ParseUint` at base 10 over the remaining bytes, with
the accumulator `n`; `s0` is the whole input, kept for the error value. -/
def parseUintLoop (s0 : GoString) (maxVal : Nat) : List GoByte → Nat → Nat × Option GoError
  | [], n => (n, none)
  | c :: rest, n =>
    match digitOf c with
    | none => (0, some (syntaxError "ParseUint" s0))
    | some d =>
      if d ≥ 10 then (0, some (syntaxError "ParseUint" s0))
      else if n ≥ maxUint64 / 10 + 1 then (maxVal, some (rangeError "ParseUint" s0))
      else
        let n10 := wrapU64 (n * 10)
        let n1 := wrapU64 (n10 + d.val)
        if n1 < n10 ∨ n1 > maxVal then (maxVal, some (rangeError "ParseUint" s0))
        else parseUintLoop s0 maxVal rest n1

/-- Go's `strconv.ParseUint(s, 10, bitSize)` for `bitSize` 0 (meaning
`intSize`) or between 1 and 64; base 10 is the only base `Atoi` uses. -/
def ParseUint (intSize : Nat) (s : GoString) (bitSize : Nat) : Nat × Option GoError :=
  if s = [] then (0, some (syntaxError "ParseUint" s))
  else
    let bitSize := if bitSize = 0 then intSize else bitSize
    let maxVal := wrapU64 (wrapU64 (2 ^ bitSize) + 2 ^ 64 - 1)
    parseUintLoop s maxVal s 0

/-- Go's `strconv.ParseInt(s, 10, bitSize)`; the result is an `int64`. -/
def ParseInt (intSize : Nat) (s : GoString) (bitSize : Nat) : Int × Option GoError :=
  match s with
  | [] => (0, some (syntaxError "ParseInt" s))
  | c :: t =>
    let s0 := s
    let neg := decide (c = 45)
    let s1 := if c = 43 then t else if c = 45 then t else s
    match ParseUint intSize s1 bitSize with
    | (_, some (GoError.numError _ _ NumErrKind.ErrSyntax)) =>
      (0, some (GoError.numError "ParseInt" s0 NumErrKind.ErrSyntax))
    | (un, _) =>
      let bitSize := if bitSize = 0 then intSize else bitSize
      let cutoff := wrapU64 (2 ^ (bitSize - 1))
      if neg = false ∧ un ≥ cutoff then
        (wrapInt 64 ((cutoff : Int) - 1), some (rangeError "ParseInt" s0))
      else if neg = true ∧ un > cutoff then
        (wrapInt 64 (-(wrapInt 64 (cutoff : Int))), some (rangeError "ParseInt" s0))
      else
        let n := wrapInt 64 (un : Int)
        (if neg then wrapInt 64 (-n) else n, none)

/-- The loop of the fast path of `strconv.Atoi`: `none` is the syntax error
returned from inside the loop. -/
def atoiFastLoop (intSize : Nat) : List GoByte → Int → Option Int
  | [], n => some n
  | ch :: rest, n =>
    let ch := ch - 48
    if ch > 9 then none
    else atoiFastLoop intSize rest (wrapInt intSize (wrapInt intSize (n * 10) + (ch.val : Int)))

/-- Go's `strconv.Atoi`. -/
def Atoi (intSize : Nat) (s : GoString) : Int × Option GoError :=
  let sLen := s.length
  if (intSize = 32 ∧ (0 < sLen ∧ sLen < 10)) ∨ (intSize = 64 ∧ (0 < sLen ∧ sLen < 19)) then
    match s with
    | [] => (0, some (syntaxError "Atoi" s)) -- not reached: `0 < sLen`
    | c :: t =>
      let s0 := s
      let signed := decide (c = 45 ∨ c = 43)
      let s1 := if signed then t else s
      if signed ∧ s1.length < 1 then (0, some (syntaxError "Atoi" s0))
      else
        match atoiFastLoop intSize s1 0 with
        | none => (0, some (syntaxError "Atoi" s0))
        | some n => (if c = 45 then wrapInt intSize (-n) else n, none)
  else
    match ParseInt intSize s 0 with
    | (i64, some (GoError.numError _ num e)) =>
      (wrapInt intSize i64, some (GoError.numError "Atoi" num e))
    | (i64, err) => (wrapInt intSize i64, err)

/-- Go's `strconv.ParseBool`. -/
def ParseBool (str : GoString) : Bool × Option GoError :=
  if str = goStr "1" ∨ str = goStr "t" ∨ str = goStr "T" ∨ str = goStr "true"
      ∨ str = goStr "TRUE" ∨ str = goStr "True" then (true, none)
  else if str = goStr "0" ∨ str = goStr "f" ∨ str = goStr "F" ∨ str = goStr "false"
      ∨ str = goStr "FALSE" ∨ str = goStr "False" then (false, none)
  else (false, some (syntaxError "ParseBool" str))

/-! ## osenv.go -/

/-- The interface `Converter`: a default value and a conversion. -/
structure Converter where
  GetDefaultValue : GoAny
  Convert : GoString → GoAny × Option GoError

/-- The struct `IntConverter`. -/
structure IntConverter where
  DefaultValue : Int

/-- The method `IntConverter.GetDefaultValue`. -/
def IntConverter.GetDefaultValue (i : IntConverter) : GoAny := GoAny.int i.DefaultValue

/-- The method `IntConverter.Convert`. -/
def IntConverter.Convert (intSize : Nat) (i : IntConverter) (s : GoString) :
    GoAny × Option GoError :=
  match Atoi intSize s with
  | (_, some err) => (i.GetDefaultValue, errorsJoin [some err])
  | (value, none) => (GoAny.int value, none)

/-- The struct `IntConverter` seen as a `Converter`. -/
def IntConverter.toConverter (intSize : Nat) (i : IntConverter) : Converter :=
  { GetDefaultValue := i.GetDefaultValue, Convert := i.Convert intSize }

/-- The struct `BoolConverter`. -/
structure BoolConverter where
  DefaultValue : Bool

/-- The method `BoolConverter.GetDefaultValue`. -/
def BoolConverter.GetDefaultValue (b : BoolConverter) : GoAny := GoAny.bool b.DefaultValue

/-- The method `BoolConverter.Convert`. -/
def BoolConverter.Convert (b : BoolConverter) (s : GoString) : GoAny × Option GoError :=
  match ParseBool s with
  | (_, some err) => (b.GetDefaultValue, errorsJoin [some err])
  | (result, none) => (GoAny.bool result, none)

/-- The struct `BoolConverter` seen as a `Converter`. -/
def BoolConverter.toConverter (b : BoolConverter) : Converter :=
  { GetDefaultValue := b.GetDefaultValue, Convert := b.Convert }

/-- The function `Get`. -/
def Get (env : Env) (envKey : GoString) (c : Converter) : GoAny :=
  let defaultValue := c.GetDefaultValue
  let envValue := Getenv env envKey
  if envValue = [] then defaultValue
  else (c.Convert envValue).1

/-- The function `GetString`. -/
def GetString (env : Env) (envKey : GoString) (defaultValue : GoString) : GoString :=
  let envValue := Getenv env envKey
  if envValue = [] then defaultValue
  else envValue

/-- The type assertion `result.(int)` in its two-value form: the value and
`ok`; the value is the zero value when the dynamic type is not `int`. -/
def assertInt : GoAny → Int × Bool
  | GoAny.int n => (n, true)
  | _ => (0, false)

/-- The type assertion `result.(bool)` in its two-value form. -/
def assertBool : GoAny → Bool × Bool
  | GoAny.bool b => (b, true)
  | _ => (false, false)

/-- The function `GetInt`. -/
def GetInt (intSize : Nat) (env : Env) (envKey : GoString) (defaultValue : Int) : Int :=
  let intConverter : IntConverter := { DefaultValue := defaultValue }
  let result := Get env envKey (intConverter.toConverter intSize)
  (assertInt result).1

/-- The function `GetBool`. -/
def GetBool (env : Env) (envKey : GoString) (defaultValue : Bool) : Bool :=
  let boolConverter : BoolConverter := { DefaultValue := defaultValue }
  let result := Get env envKey boolConverter.toConverter
  (assertBool result).1

/-- An environment with exactly one variable set. -/
def singleEnv (key value : GoString) : Env :=
  fun k => if k = key then some value else none

/-! ## Specification-side notions -/

/-- The literals the specification lists as true. -/
def trueLiterals : List GoString :=
  [goStr "1", goStr "t", goStr "T", goStr "TRUE", goStr "true", goStr "True"]

/-- The literals the specification lists as false. -/
def falseLiterals : List GoString :=
  [goStr "0", goStr "f", goStr "F", goStr "FALSE", goStr "false", goStr "False"]

/-- A decimal digit: one of the bytes `'0'` to `'9'`. -/
def isDecimalDigit (c : GoByte) : Bool := decide (48 ≤ c.val ∧ c.val ≤ 57)

/-- One step of reading a decimal numeral from the left. -/
def pushDigit (n : Nat) (c : GoByte) : Nat := n * 10 + (c.val - 48)

/-- The number denoted by a sequence of decimal digits. -/
def decimalValue (ds : List GoByte) : Nat := ds.foldl pushDigit 0

/-- The integer denoted by a base-10 signed integer numeral: an optional
sign (`+` or `-`) followed by one or more decimal digits and nothing else;
`none` when the string is not such a numeral. -/
def numeralValue : GoString → Option Int
  | [] => none
  | c :: t =>
    let body := if c = 43 ∨ c = 45 then t else c :: t
    if body ≠ [] ∧ body.all isDecimalDigit = true then
      some (if c = 45 then -(decimalValue body : Int) else (decimalValue body : Int))
    else none

/-- The range of Go's `int` with `intSize` bits. -/
def inIntRange (intSize : Nat) (n : Int) : Prop :=
  -(2 : Int) ^ (intSize - 1) ≤ n ∧ n < (2 : Int) ^ (intSize - 1)

instance (intSize : Nat) (n : Int) : Decidable (inIntRange intSize n) :=
  inferInstanceAs (Decidable (-(2 : Int) ^ (intSize - 1) ≤ n ∧ n < (2 : Int) ^ (intSize - 1)))

/-! ## Bounds used in the proofs -/

/-- The largest number of bytes the fast path of `Atoi` handles. -/
def fastDigits (w : Nat) : Nat := if w = 32 then 9 else 18

/-! ## strconv: formatting -/

/-- The byte of the decimal digit `d` (`digits[d]` in `strconv`). -/
def digitByte (d : Nat) : GoByte := Fin.ofNat (48 + d)

/-- The decimal digits of `u`, most significant first, put in front of `acc`:
the digit loop of `strconv`'s `formatBits` at base 10, one digit per step.
`fuel` bounds the number of digits written (the buffer of `formatBits`). -/
def formatDigits : Nat → Nat → List GoByte → List GoByte
  | 0, _, acc => acc
  | fuel + 1, u, acc =>
    if u ≥ 10 then formatDigits fuel (u / 10) (digitByte (u % 10) :: acc)
    else digitByte u :: acc

/-- Go's `strconv.FormatInt(i, 10)` for an `int64` `i`, after its documented
behaviour: the decimal digits of the magnitude of `i` (computed in `uint64`,
as `formatBits` does), with a leading `-` when `i` is negative. -/
def FormatInt (i : Int) : GoString :=
  let u := (i % 2 ^ 64).toNat
  let neg := decide (i < 0)
  let u := if neg then wrapU64 (2 ^ 64 - u) else u
  let ds := formatDigits 20 u []
  if neg then 45 :: ds else ds

/-- Go's `strconv.Itoa`: `FormatInt(int64(i), 10)`. -/
def Itoa (i : Int) : GoString := FormatInt (wrapInt 64 i)

/-- Go's `strconv.FormatBool`. -/
def FormatBool (b : Bool) : GoString := if b then goStr "true" else goStr "false"

/-! ## Two user-defined converters -/

/-- A user-defined converter in the usual Go style: on failure it returns
the zero value (`nil`) together with the error.  Its default value is 7. -/
def nilOnErrorConverter : Converter :=
  { GetDefaultValue := GoAny.int 7
    Convert := fun _ => (GoAny.nil, some (GoError.custom "unsupported value")) }

/-- A user-defined converter with default 7 that accepts every string and
converts it to its length. -/
def lengthConverter : Converter :=
  { GetDefaultValue := GoAny.int 7
    Convert := fun s => (GoAny.int s.length, none) }

/-! ## Facts about bytes -/

set_option maxRecDepth 100000 in
theorem sub_zero_gt_nine_iff : ∀ c : GoByte, (c - 48 > 9) ↔ isDecimalDigit c = false := by
  decide

set_option maxRecDepth 100000 in
theorem sub_zero_val : ∀ c : GoByte, isDecimalDigit c = true → (c - 48).val = c.val - 48 := by
  decide

set_option maxRecDepth 100000 in
theorem digitOf_of_digit : ∀ c : GoByte, isDecimalDigit c = true →
    digitOf c = some (c - 48) ∧ ¬ (c - 48 ≥ 10) := by
  decide

set_option maxRecDepth 100000 in
theorem digitOf_of_not_digit : ∀ c : GoByte, isDecimalDigit c = false →
    digitOf c = none ∨ ∃ d, digitOf c = some d ∧ d ≥ 10 := by
  decide

theorem digit_val_le (c : GoByte) (h : isDecimalDigit c = true) : c.val - 48 ≤ 9 := by
  simp [isDecimalDigit] at h; omega

/-! ## The digit loops -/

theorem foldl_pushDigit_ge (l : List GoByte) : ∀ a : Nat, a ≤ l.foldl pushDigit a := by
  induction l with
  | nil => intro a; simp
  | cons c rest ih =>
    intro a
    simp only [List.foldl_cons]
    have h := ih (pushDigit a c)
    unfold pushDigit at h ⊢
    omega

theorem foldl_pushDigit_lt (l : List GoByte) : ∀ a k : Nat, a < 10 ^ k →
    l.all isDecimalDigit = true → l.foldl pushDigit a < 10 ^ (k + l.length) := by
  induction l with
  | nil => intro a k h _; simpa using h
  | cons c rest ih =>
    intro a k h hd
    simp only [List.all_cons, Bool.and_eq_true] at hd
    simp only [List.foldl_cons, List.length_cons]
    have hc := digit_val_le c hd.1
    have h1 : pushDigit a c < 10 ^ (k + 1) := by
      unfold pushDigit; rw [pow_succ]; omega
    have := ih (pushDigit a c) (k + 1) h1 hd.2
    rwa [show k + (rest.length + 1) = k + 1 + rest.length by omega]

theorem wrapInt_eq_self (w : Nat) (hw : w = 32 ∨ w = 64) (x : Int)
    (h : -(2 : Int) ^ (w - 1) ≤ x ∧ x < (2 : Int) ^ (w - 1)) : wrapInt w x = x := by
  unfold wrapInt
  rcases hw with rfl | rfl <;> norm_num at h ⊢ <;> omega

theorem pow_fastDigits_lt (w : Nat) (hw : w = 32 ∨ w = 64) (k : Nat) (hk : k ≤ fastDigits w) :
    (10 : Int) ^ k < (2 : Int) ^ (w - 1) := by
  have h1 : (10 : Int) ^ k ≤ 10 ^ fastDigits w := pow_le_pow_right₀ (by norm_num) hk
  rcases hw with rfl | rfl <;> simp [fastDigits] at h1 ⊢ <;> omega

theorem atoiFastLoop_eq (w : Nat) (hw : w = 32 ∨ w = 64) (l : List GoByte) :
    ∀ a k : Nat, a < 10 ^ k → k + l.length ≤ fastDigits w →
      atoiFastLoop w l (a : Int) =
        if l.all isDecimalDigit = true then some ((l.foldl pushDigit a : Nat) : Int) else none := by
  induction l with
  | nil => intro a k _ _; simp [atoiFastLoop]
  | cons c rest ih =>
    intro a k ha hk
    simp only [List.length_cons] at hk
    by_cases hc : isDecimalDigit c = true
    · have hgt : ¬ (c - 48 > 9) := by
        rw [sub_zero_gt_nine_iff]; simp [hc]
      have hv := sub_zero_val c hc
      have hle := digit_val_le c hc
      have hpow : (10 : Int) ^ (k + 1) < (2 : Int) ^ (w - 1) :=
        pow_fastDigits_lt w hw (k + 1) (by omega)
      have ha' : ((a : Int)) < 10 ^ k := by exact_mod_cast ha
      have h10 : (10 : Int) ^ (k + 1) = 10 ^ k * 10 := pow_succ _ _
      have hpos : (0 : Int) ≤ a := Int.ofNat_nonneg a
      have hneg : -(2 : Int) ^ (w - 1) ≤ 0 := by
        have : (0 : Int) ≤ (2 : Int) ^ (w - 1) := by positivity
        omega
      have e1 : wrapInt w ((a : Int) * 10) = (a : Int) * 10 :=
        wrapInt_eq_self w hw _ ⟨by omega, by omega⟩
      have e2 : wrapInt w ((a : Int) * 10 + ((c - 48).val : Int)) = ((pushDigit a c : Nat) : Int) := by
        rw [wrapInt_eq_self w hw _ ⟨by omega, by omega⟩]
        unfold pushDigit; rw [hv]; push_cast; rfl
      have hp : pushDigit a c < 10 ^ (k + 1) := by
        unfold pushDigit; rw [pow_succ]; omega
      simp only [atoiFastLoop, hgt, if_false, e1, e2, List.all_cons, hc, Bool.true_and,
        List.foldl_cons]
      exact ih (pushDigit a c) (k + 1) hp (by omega)
    · have hc' : isDecimalDigit c = false := by simpa using hc
      have hgt : c - 48 > 9 := (sub_zero_gt_nine_iff c).2 hc'
      simp [atoiFastLoop, hgt, hc']

/-- What `parseUintLoop` returns, in terms of the digits it reads. -/
theorem parseUintLoop_cases (s0 : GoString) (maxVal : Nat) (hm : maxVal < 2 ^ 64)
    (l : List GoByte) : ∀ n : Nat, n ≤ maxVal →
      (l.all isDecimalDigit = true ∧ l.foldl pushDigit n ≤ maxVal ∧
        parseUintLoop s0 maxVal l n = (l.foldl pushDigit n, none))
      ∨ (l.all isDecimalDigit = true ∧ maxVal < l.foldl pushDigit n ∧
        parseUintLoop s0 maxVal l n = (maxVal, some (rangeError "ParseUint" s0)))
      ∨ (l.all isDecimalDigit = false ∧
        (parseUintLoop s0 maxVal l n = (0, some (syntaxError "ParseUint" s0)) ∨
          parseUintLoop s0 maxVal l n = (maxVal, some (rangeError "ParseUint" s0)))) := by
  induction l with
  | nil => intro n hn; left; simp [parseUintLoop, hn]
  | cons c rest ih =>
    intro n hn
    by_cases hc : isDecimalDigit c = true
    · obtain ⟨hd, hd10⟩ := digitOf_of_digit c hc
      have hv := sub_zero_val c hc
      have hle := digit_val_le c hc
      by_cases hcut : n ≥ maxUint64 / 10 + 1
      · have hres : parseUintLoop s0 maxVal (c :: rest) n
            = (maxVal, some (rangeError "ParseUint" s0)) := by
          simp only [parseUintLoop, hd]
          rw [if_neg hd10, if_pos hcut]
        have hbig : maxVal < (c :: rest).foldl pushDigit n := by
          have := foldl_pushDigit_ge rest (pushDigit n c)
          simp only [List.foldl_cons]
          unfold pushDigit at this ⊢
          norm_num [maxUint64] at hcut hm
          omega
        by_cases hr : rest.all isDecimalDigit = true
        · right; left; exact ⟨by simp [hc, hr], hbig, hres⟩
        · right; right; exact ⟨by simpa [hc] using hr, Or.inr hres⟩
      · have e10 : wrapU64 (n * 10) = n * 10 := by
          unfold wrapU64; norm_num [maxUint64] at hcut ⊢; omega
        by_cases hov : wrapU64 (n * 10 + (c - 48).val) < n * 10 ∨
            wrapU64 (n * 10 + (c - 48).val) > maxVal
        · have hres : parseUintLoop s0 maxVal (c :: rest) n
              = (maxVal, some (rangeError "ParseUint" s0)) := by
            simp only [parseUintLoop, hd]
            rw [if_neg hd10, if_neg hcut]
            simp only [e10]
            rw [if_pos hov]
          have hbig : maxVal < (c :: rest).foldl pushDigit n := by
            have := foldl_pushDigit_ge rest (pushDigit n c)
            simp only [List.foldl_cons]
            unfold pushDigit at this ⊢
            unfold wrapU64 at hov
            norm_num [maxUint64] at hcut hm hov
            omega
          by_cases hr : rest.all isDecimalDigit = true
          · right; left; exact ⟨by simp [hc, hr], hbig, hres⟩
          · right; right; exact ⟨by simpa [hc] using hr, Or.inr hres⟩
        · have hn1 : wrapU64 (n * 10 + (c - 48).val) = pushDigit n c := by
            unfold wrapU64 pushDigit at *
            norm_num [maxUint64] at hcut hm hov ⊢
            omega
          have hn1le : pushDigit n c ≤ maxVal := by
            rw [← hn1]; omega
          have hres : parseUintLoop s0 maxVal (c :: rest) n
              = parseUintLoop s0 maxVal rest (pushDigit n c) := by
            simp only [parseUintLoop, hd]
            rw [if_neg hd10, if_neg hcut]
            simp only [e10]
            rw [if_neg hov, hn1]
          simp only [List.all_cons, hc, Bool.true_and, List.foldl_cons, hres]
          exact ih (pushDigit n c) hn1le
    · have hc' : isDecimalDigit c = false := by simpa using hc
      right; right
      refine ⟨by simp [hc'], Or.inl ?_⟩
      rcases digitOf_of_not_digit c hc' with h | ⟨d, h, hd⟩
      · simp [parseUintLoop, h]
      · simp only [parseUintLoop, h]
        rw [if_pos hd]

/-! ## ParseUint, ParseInt and Atoi -/

theorem ParseUint_cases (w : Nat) (hw : w = 32 ∨ w = 64) (body : GoString) (hb : body ≠ []) :
    (body.all isDecimalDigit = true ∧ decimalValue body ≤ 2 ^ w - 1 ∧
      ParseUint w body 0 = (decimalValue body, none))
    ∨ (body.all isDecimalDigit = true ∧ 2 ^ w - 1 < decimalValue body ∧
      ParseUint w body 0 = (2 ^ w - 1, some (rangeError "ParseUint" body)))
    ∨ (body.all isDecimalDigit = false ∧
      (ParseUint w body 0 = (0, some (syntaxError "ParseUint" body)) ∨
        ParseUint w body 0 = (2 ^ w - 1, some (rangeError "ParseUint" body)))) := by
  have hmax : wrapU64 (wrapU64 (2 ^ w) + 2 ^ 64 - 1) = 2 ^ w - 1 := by
    rcases hw with rfl | rfl <;> norm_num [wrapU64]
  have hm : 2 ^ w - 1 < 2 ^ 64 := by
    rcases hw with rfl | rfl <;> norm_num
  have h := parseUintLoop_cases body (2 ^ w - 1) hm body 0 (Nat.zero_le _)
  simpa only [ParseUint, hb, if_false, if_true, hmax, decimalValue] using h

theorem sign_body (c : GoByte) (t : List GoByte) :
    (if c = 43 then t else if c = 45 then t else c :: t)
      = (if c = 43 ∨ c = 45 then t else c :: t) := by
  by_cases h1 : c = 43 <;> by_cases h2 : c = 45 <;> simp [h1, h2]

/-- The tail of `ParseInt` after a successful `ParseUint`, negative sign. -/
theorem parseInt_neg_tail (w : Nat) (hw : w = 32 ∨ w = 64) (u : Nat) (hu : u ≤ 2 ^ w - 1) :
    (u ≤ 2 ^ (w - 1) → inIntRange w (-(u : Int)) ∧
        wrapInt 64 (-wrapInt 64 (u : Int)) = -(u : Int))
    ∧ (2 ^ (w - 1) < u → ¬ inIntRange w (-(u : Int))) := by
  unfold inIntRange wrapInt
  rcases hw with rfl | rfl <;> norm_num at hu ⊢ <;> constructor <;> intro h <;> omega

/-- The tail of `ParseInt` after a successful `ParseUint`, no negative sign. -/
theorem parseInt_pos_tail (w : Nat) (hw : w = 32 ∨ w = 64) (u : Nat) (hu : u ≤ 2 ^ w - 1) :
    (u < 2 ^ (w - 1) → inIntRange w (u : Int) ∧ wrapInt 64 (u : Int) = (u : Int))
    ∧ (2 ^ (w - 1) ≤ u → ¬ inIntRange w (u : Int)) := by
  unfold inIntRange wrapInt
  rcases hw with rfl | rfl <;> norm_num at hu ⊢ <;> constructor <;> intro h <;> omega

theorem not_inIntRange_of_big (w : Nat) (hw : w = 32 ∨ w = 64) (u : Nat) (hu : 2 ^ w - 1 < u) :
    ¬ inIntRange w (u : Int) ∧ ¬ inIntRange w (-(u : Int)) ∧ 2 ^ (w - 1) < u := by
  unfold inIntRange
  rcases hw with rfl | rfl <;> norm_num at hu ⊢ <;> omega

theorem ParseInt_cases (w : Nat) (hw : w = 32 ∨ w = 64) (s : GoString) :
    (∃ n, numeralValue s = some n ∧ inIntRange w n ∧ ParseInt w s 0 = (n, none))
    ∨ ((¬ ∃ n, numeralValue s = some n ∧ inIntRange w n) ∧
        ∃ v f num k, ParseInt w s 0 = (v, some (GoError.numError f num k))) := by
  cases s with
  | nil => right; simp [numeralValue, ParseInt, syntaxError]
  | cons c t =>
    simp only [ParseInt, numeralValue, sign_body]
    generalize (if c = 43 ∨ c = 45 then t else c :: t) = body
    by_cases hb : body = []
    · subst hb; right; simp [ParseUint, syntaxError]
    · have hcut : wrapU64 (2 ^ (w - 1)) = 2 ^ (w - 1) := by
        rcases hw with rfl | rfl <;> norm_num [wrapU64]
      have hM : 2 ^ (w - 1) < 2 ^ w - 1 := by
        rcases hw with rfl | rfl <;> norm_num
      have hbt : body ≠ [] ∧ True := ⟨hb, trivial⟩
      rcases ParseUint_cases w hw body hb with ⟨hd, hle, hres⟩ | ⟨hd, hlt, hres⟩ |
          ⟨hd, hres | hres⟩
      · rw [hres]
        simp only [hd, if_pos hbt, if_true, hcut]
        generalize decimalValue body = u at hle ⊢
        obtain ⟨hn1, hn2⟩ := parseInt_neg_tail w hw u hle
        obtain ⟨hp1, hp2⟩ := parseInt_pos_tail w hw u hle
        by_cases hneg : c = 45
        · simp only [hneg, decide_True, if_true, Bool.true_eq_false, false_and, if_false,
            true_and]
          by_cases hr : u > 2 ^ (w - 1)
          · right
            refine ⟨?_, ?_⟩
            · rintro ⟨n, hn, hrange⟩
              simp only [Option.some.injEq] at hn; subst hn
              exact hn2 hr hrange
            · rw [if_pos hr]
              exact ⟨_, _, _, _, rfl⟩
          · left
            have hr' : u ≤ 2 ^ (w - 1) := by omega
            refine ⟨-(u : Int), rfl, (hn1 hr').1, ?_⟩
            rw [if_neg hr, (hn1 hr').2]
        · simp only [hneg, decide_False, if_false, Bool.false_eq_true, false_and, true_and]
          by_cases hr : u ≥ 2 ^ (w - 1)
          · right
            refine ⟨?_, ?_⟩
            · rintro ⟨n, hn, hrange⟩
              simp only [Option.some.injEq] at hn; subst hn
              exact hp2 hr hrange
            · rw [if_pos hr]
              exact ⟨_, _, _, _, rfl⟩
          · left
            have hr' : u < 2 ^ (w - 1) := by omega
            refine ⟨(u : Int), rfl, (hp1 hr').1, ?_⟩
            rw [if_neg hr, (hp1 hr').2]
      · rw [hres]
        simp only [hd, if_pos hbt, if_true, hcut, rangeError]
        generalize decimalValue body = u at hlt ⊢
        obtain ⟨hb1, hb2, hb3⟩ := not_inIntRange_of_big w hw u hlt
        right
        refine ⟨?_, ?_⟩
        · rintro ⟨n, hn, hrange⟩
          simp only [Option.some.injEq] at hn; subst hn
          by_cases hneg : c = 45
          · simp only [hneg, if_true] at hrange; exact hb2 hrange
          · simp only [hneg, if_false] at hrange; exact hb1 hrange
        · by_cases hneg : c = 45
          · simp only [hneg, decide_True, Bool.true_eq_false, false_and, if_false, true_and]
            rw [if_pos hM]
            exact ⟨_, _, _, _, rfl⟩
          · simp only [hneg, decide_False, Bool.false_eq_true, false_and, if_false, true_and]
            rw [if_pos (show 2 ^ w - 1 ≥ 2 ^ (w - 1) by omega)]
            exact ⟨_, _, _, _, rfl⟩
      · rw [hres]
        right
        refine ⟨?_, ?_⟩
        · simp [hd]
        · exact ⟨_, _, _, _, rfl⟩
      · rw [hres]
        simp only [rangeError, if_true, hcut]
        right
        refine ⟨?_, ?_⟩
        · simp [hd]
        · by_cases hneg : c = 45
          · simp only [hneg, decide_True, Bool.true_eq_false, false_and, if_false, true_and]
            rw [if_pos hM]
            exact ⟨_, _, _, _, rfl⟩
          · simp only [hneg, decide_False, Bool.false_eq_true, false_and, if_false, true_and]
            rw [if_pos (show 2 ^ w - 1 ≥ 2 ^ (w - 1) by omega)]
            exact ⟨_, _, _, _, rfl⟩

/-- The fast path of `Atoi` on the digits after the optional sign. -/
theorem atoi_fast_body (w : Nat) (hw : w = 32 ∨ w = 64) (body : List GoByte)
    (hlen : body.length ≤ fastDigits w) :
    atoiFastLoop w body 0 =
        (if body.all isDecimalDigit = true then some ((decimalValue body : Nat) : Int) else none)
    ∧ (body.all isDecimalDigit = true →
        inIntRange w (decimalValue body : Int) ∧ inIntRange w (-(decimalValue body : Int)) ∧
        wrapInt w (-(decimalValue body : Int)) = -(decimalValue body : Int)) := by
  have h := atoiFastLoop_eq w hw body 0 0 (by norm_num) (by omega)
  refine ⟨by simpa [decimalValue] using h, ?_⟩
  intro hd
  have hlt := foldl_pushDigit_lt body 0 0 (by norm_num) hd
  have hpow := pow_fastDigits_lt w hw (0 + body.length) (by omega)
  have hlt' : ((decimalValue body : Nat) : Int) < 10 ^ (0 + body.length) := by
    unfold decimalValue; exact_mod_cast hlt
  have hpos : (0 : Int) ≤ (decimalValue body : Nat) := Int.ofNat_nonneg _
  have hr1 : inIntRange w (decimalValue body : Int) := by
    unfold inIntRange; constructor <;> omega
  have hr2 : inIntRange w (-(decimalValue body : Int)) := by
    unfold inIntRange; constructor <;> omega
  exact ⟨hr1, hr2, wrapInt_eq_self w hw _ hr2⟩

theorem Atoi_cases (w : Nat) (hw : w = 32 ∨ w = 64) (s : GoString) :
    (∃ n, numeralValue s = some n ∧ inIntRange w n ∧ Atoi w s = (n, none))
    ∨ ((¬ ∃ n, numeralValue s = some n ∧ inIntRange w n) ∧ ∃ v e, Atoi w s = (v, some e)) := by
  unfold Atoi
  by_cases hfast : (w = 32 ∧ (0 < s.length ∧ s.length < 10)) ∨
      (w = 64 ∧ (0 < s.length ∧ s.length < 19))
  · have hlen : 0 < s.length ∧ s.length ≤ fastDigits w := by
      unfold fastDigits
      rcases hfast with ⟨rfl, h⟩ | ⟨rfl, h⟩ <;> simp <;> omega
    simp only [if_pos hfast]
    cases s with
    | nil => simp at hlen
    | cons c t =>
      simp only [List.length_cons] at hlen
      simp only [numeralValue]
      by_cases hs : c = 45 ∨ c = 43
      · have hs' : c = 43 ∨ c = 45 := hs.symm
        simp only [hs, hs', decide_True, if_true, true_and]
        by_cases ht : t.length < 1
        · right
          have : t = [] := List.length_eq_zero.mp (by omega)
          subst this
          simp
        · obtain ⟨hloop, hrange⟩ := atoi_fast_body w hw t (by omega)
          have htne : t ≠ [] := by
            intro h; subst h; simp at ht
          rw [if_neg ht, hloop]
          by_cases hd : t.all isDecimalDigit = true
          · left
            obtain ⟨hr1, hr2, hwrap⟩ := hrange hd
            simp only [hd, if_true, htne, ne_eq, not_false_eq_true, and_self]
            by_cases hneg : c = 45
            · simp only [hneg, if_true, hwrap]
              exact ⟨_, rfl, hr2, rfl⟩
            · simp only [hneg, if_false]
              exact ⟨_, rfl, hr1, rfl⟩
          · right
            simp [hd]
      · have hs' : ¬ (c = 43 ∨ c = 45) := fun h => hs h.symm
        have hneg : ¬ c = 45 := fun h => hs (Or.inl h)
        simp only [hs, hs', decide_False, if_false, false_and, Bool.false_eq_true]
        obtain ⟨hloop, hrange⟩ := atoi_fast_body w hw (c :: t) (by simp; omega)
        rw [hloop]
        by_cases hd : (c :: t).all isDecimalDigit = true
        · left
          obtain ⟨hr1, hr2, hwrap⟩ := hrange hd
          simp only [hd, if_true, hneg, if_false, ne_eq, not_false_eq_true, and_self,
            reduceCtorEq]
          exact ⟨_, rfl, hr1, rfl⟩
        · right
          simp [hd]
  · simp only [if_neg hfast]
    rcases ParseInt_cases w hw s with ⟨n, hn, hr, hres⟩ | ⟨hn, v, f, num, k, hres⟩
    · left
      refine ⟨n, hn, hr, ?_⟩
      rw [hres]
      simp only [wrapInt_eq_self w hw n hr]
    · right
      refine ⟨hn, ?_⟩
      rw [hres]
      exact ⟨_, _, rfl⟩

/-- `Atoi` on a numeral within the `int` range. -/
theorem Atoi_of_numeral (w : Nat) (hw : w = 32 ∨ w = 64) (s : GoString) (n : Int)
    (hn : numeralValue s = some n) (hr : inIntRange w n) : Atoi w s = (n, none) := by
  rcases Atoi_cases w hw s with ⟨m, hm, _, hres⟩ | ⟨hno, _⟩
  · rw [hn] at hm
    simp only [Option.some.injEq] at hm
    rw [hres, hm]
  · exact absurd ⟨n, hn, hr⟩ hno

/-- `Atoi` on every other string. -/
theorem Atoi_of_not_numeral (w : Nat) (hw : w = 32 ∨ w = 64) (s : GoString)
    (hno : ¬ ∃ n, numeralValue s = some n ∧ inIntRange w n) :
    ∃ v e, Atoi w s = (v, some e) := by
  rcases Atoi_cases w hw s with ⟨m, hm, hr, _⟩ | ⟨_, h⟩
  · exact absurd ⟨m, hm, hr⟩ hno
  · exact h

/-! ## Formatting and the round trip -/

theorem digitByte_spec (d : Nat) (hd : d < 10) :
    isDecimalDigit (digitByte d) = true ∧ (digitByte d).val - 48 = d ∧
      digitByte d ≠ 43 ∧ digitByte d ≠ 45 := by
  interval_cases d <;> decide

theorem foldl_pushDigit_append (l : List GoByte) (c : GoByte) (a : Nat) :
    (l ++ [c]).foldl pushDigit a = pushDigit (l.foldl pushDigit a) c := by
  simp [List.foldl_append]

theorem formatDigits_small (fuel u : Nat) (acc : List GoByte) (hu' : u < 10) :
    ∃ ds : List GoByte, formatDigits (fuel + 1) u acc = ds ++ acc ∧ ds ≠ [] ∧
      ds.all isDecimalDigit = true ∧ (∀ c, ds.head? = some c → c ≠ 43 ∧ c ≠ 45) ∧
      ∀ a, ds.foldl pushDigit a = a * 10 ^ ds.length + u := by
  obtain ⟨hdig, hdv, h43, h45⟩ := digitByte_spec u hu'
  have hu : ¬ u ≥ 10 := by omega
  refine ⟨[digitByte u], ?_, by simp, by simp [hdig], ?_, ?_⟩
  · simp [formatDigits, hu]
  · intro c hc
    simp only [List.head?_cons, Option.some.injEq] at hc
    subst hc; exact ⟨h43, h45⟩
  · intro a
    simp [pushDigit, hdv]

theorem formatDigits_spec : ∀ (fuel u : Nat) (acc : List GoByte), u < 10 ^ (fuel + 1) →
    ∃ ds : List GoByte, formatDigits (fuel + 1) u acc = ds ++ acc ∧ ds ≠ [] ∧
      ds.all isDecimalDigit = true ∧ (∀ c, ds.head? = some c → c ≠ 43 ∧ c ≠ 45) ∧
      ∀ a, ds.foldl pushDigit a = a * 10 ^ ds.length + u := by
  intro fuel
  induction fuel with
  | zero => intro u acc h; exact formatDigits_small 0 u acc (by simpa using h)
  | succ fuel ih =>
    intro u acc h
    by_cases hu : u ≥ 10
    · have hlt : u / 10 < 10 ^ (fuel + 1) := by
        rw [pow_succ] at h; omega
      obtain ⟨ds, hds, hne, hall, hhead, hval⟩ := ih (u / 10) (digitByte (u % 10) :: acc) hlt
      obtain ⟨hdig, hdv, _, _⟩ := digitByte_spec (u % 10) (Nat.mod_lt _ (by norm_num))
      refine ⟨ds ++ [digitByte (u % 10)], ?_, by simp, ?_, ?_, ?_⟩
      · rw [formatDigits, if_pos hu, hds, List.append_assoc, List.singleton_append]
      · simp [List.all_append, hall, hdig]
      · intro c hc
        cases ds with
        | nil => exact absurd rfl hne
        | cons x xs => exact hhead c (by simpa using hc)
      · intro a
        rw [foldl_pushDigit_append, hval a]
        unfold pushDigit
        rw [hdv, List.length_append, List.length_singleton, pow_succ]
        have := Nat.div_add_mod u 10
        nlinarith [this]
    · exact formatDigits_small (fuel + 1) u acc (by omega)

theorem numeralValue_FormatInt (i : Int) (hi : -(2 : Int) ^ 63 ≤ i ∧ i < 2 ^ 63) :
    numeralValue (FormatInt i) = some i := by
  unfold FormatInt
  by_cases hneg : i < 0
  · have hu : wrapU64 (2 ^ 64 - (i % 2 ^ 64).toNat) = (-i).toNat := by
      unfold wrapU64; norm_num at hi ⊢; omega
    have hlt : (-i).toNat < 10 ^ 20 := by norm_num at hi ⊢; omega
    obtain ⟨ds, hds, hne, hall, _, hval⟩ := formatDigits_spec 19 (-i).toNat [] hlt
    simp only [hneg, decide_True, if_true, hu, hds, List.append_nil, numeralValue]
    simp only [or_true, if_true, hne, ne_eq, not_false_eq_true, hall, and_self, decimalValue,
      hval 0]
    simp only [Nat.zero_mul, Nat.zero_add, Option.some.injEq]
    omega
  · have hu : (i % 2 ^ 64).toNat = i.toNat := by norm_num at hi ⊢; omega
    have hlt : i.toNat < 10 ^ 20 := by norm_num at hi ⊢; omega
    obtain ⟨ds, hds, hne, hall, hhead, hval⟩ := formatDigits_spec 19 i.toNat [] hlt
    simp only [hneg, decide_False, if_false, hu, hds, List.append_nil, Bool.false_eq_true]
    cases ds with
    | nil => exact absurd rfl hne
    | cons c t =>
      obtain ⟨h43, h45⟩ := hhead c rfl
      simp only [numeralValue, h43, h45, or_self, if_false, ne_eq, reduceCtorEq,
        not_false_eq_true, hall, and_self, if_true, decimalValue, hval 0]
      simp only [Nat.zero_mul, Nat.zero_add, Option.some.injEq]
      omega

theorem numeralValue_Itoa (w : Nat) (hw : w = 32 ∨ w = 64) (n : Int) (hr : inIntRange w n) :
    numeralValue (Itoa n) = some n := by
  have h64 : -(2 : Int) ^ 63 ≤ n ∧ n < 2 ^ 63 := by
    unfold inIntRange at hr
    rcases hw with rfl | rfl <;> norm_num at hr ⊢ <;> omega
  unfold Itoa
  rw [wrapInt_eq_self 64 (Or.inr rfl) n (by simpa using h64)]
  exact numeralValue_FormatInt n h64

theorem Itoa_ne_nil (w : Nat) (hw : w = 32 ∨ w = 64) (n : Int) (hr : inIntRange w n) :
    Itoa n ≠ [] := by
  intro h
  have := numeralValue_Itoa w hw n hr
  rw [h] at this
  simp [numeralValue] at this

theorem FormatBool_spec (b : Bool) :
    FormatBool b ≠ [] ∧ (b = true → FormatBool b ∈ trueLiterals) ∧
      (b = false → FormatBool b ∈ falseLiterals) := by
  cases b <;> decide

/-! ## The getters -/

theorem Getenv_of_set (env : Env) (key raw : GoString) (h : env key = some raw) :
    Getenv env key = raw := by
  simp [Getenv, h]

theorem Getenv_of_unset_or_empty (env : Env) (key : GoString)
    (h : env key = none ∨ env key = some []) : Getenv env key = [] := by
  rcases h with h | h <;> simp [Getenv, h]

theorem IntConverter_Convert_numeral (w : Nat) (hw : w = 32 ∨ w = 64) (d : Int) (s : GoString)
    (n : Int) (hn : numeralValue s = some n) (hr : inIntRange w n) :
    IntConverter.Convert w { DefaultValue := d } s = (GoAny.int n, none) := by
  simp [IntConverter.Convert, Atoi_of_numeral w hw s n hn hr]

theorem IntConverter_Convert_other (w : Nat) (hw : w = 32 ∨ w = 64) (d : Int) (s : GoString)
    (hno : ¬ ∃ n, numeralValue s = some n ∧ inIntRange w n) :
    ∃ e, IntConverter.Convert w { DefaultValue := d } s = (GoAny.int d, some e) := by
  obtain ⟨v, e, h⟩ := Atoi_of_not_numeral w hw s hno
  exact ⟨GoError.joinError [e], by
    simp [IntConverter.Convert, h, IntConverter.GetDefaultValue, errorsJoin]⟩

theorem ParseBool_of_true (s : GoString) (h : s ∈ trueLiterals) : ParseBool s = (true, none) := by
  simp only [trueLiterals, List.mem_cons, List.mem_singleton, List.not_mem_nil, or_false] at h
  rcases h with rfl | rfl | rfl | rfl | rfl | rfl <;> rfl

theorem ParseBool_of_false (s : GoString) (h : s ∈ falseLiterals) :
    ParseBool s = (false, none) := by
  simp only [falseLiterals, List.mem_cons, List.mem_singleton, List.not_mem_nil, or_false] at h
  rcases h with rfl | rfl | rfl | rfl | rfl | rfl <;> rfl

theorem ParseBool_of_other (s : GoString) (ht : s ∉ trueLiterals) (hf : s ∉ falseLiterals) :
    ParseBool s = (false, some (syntaxError "ParseBool" s)) := by
  simp only [trueLiterals, falseLiterals, List.mem_cons, List.mem_singleton, List.not_mem_nil,
    or_false, not_or] at ht hf
  obtain ⟨t1, t2, t3, t4, t5, t6⟩ := ht
  obtain ⟨f1, f2, f3, f4, f5, f6⟩ := hf
  simp [ParseBool, t1, t2, t3, t4, t5, t6, f1, f2, f3, f4, f5, f6]

theorem falseLiterals_not_true (s : GoString) (h : s ∈ falseLiterals) : s ∉ trueLiterals := by
  simp only [falseLiterals, List.mem_cons, List.mem_singleton, List.not_mem_nil, or_false] at h
  rcases h with rfl | rfl | rfl | rfl | rfl | rfl <;> decide

theorem BoolConverter_Convert_true (d : Bool) (s : GoString) (h : s ∈ trueLiterals) :
    BoolConverter.Convert { DefaultValue := d } s = (GoAny.bool true, none) := by
  simp [BoolConverter.Convert, ParseBool_of_true s h]

theorem BoolConverter_Convert_false (d : Bool) (s : GoString) (h : s ∈ falseLiterals) :
    BoolConverter.Convert { DefaultValue := d } s = (GoAny.bool false, none) := by
  simp [BoolConverter.Convert, ParseBool_of_false s h]

theorem BoolConverter_Convert_other (d : Bool) (s : GoString) (ht : s ∉ trueLiterals)
    (hf : s ∉ falseLiterals) :
    BoolConverter.Convert { DefaultValue := d } s
      = (GoAny.bool d, some (GoError.joinError [syntaxError "ParseBool" s])) := by
  simp [BoolConverter.Convert, ParseBool_of_other s ht hf, BoolConverter.GetDefaultValue,
    errorsJoin]

theorem Get_of_set (env : Env) (key raw : GoString) (c : Converter) (hset : env key = some raw)
    (hne : raw ≠ []) : Get env key c = (c.Convert raw).1 := by
  simp [Get, Getenv_of_set env key raw hset, hne]

theorem Get_of_unset_or_empty (env : Env) (key : GoString) (c : Converter)
    (h : env key = none ∨ env key = some []) : Get env key c = c.GetDefaultValue := by
  simp [Get, Getenv_of_unset_or_empty env key h]

/-- For a converter whose `Convert` returns the default value whenever it
reports an error (as `IntConverter` and `BoolConverter` do), `Get` returns
the default value after a failed conversion. -/
theorem Get_default_when_Convert_returns_default (env : Env) (key raw : GoString)
    (c : Converter) (hset : env key = some raw) (hne : raw ≠ [])
    (hconv : (c.Convert raw).2 ≠ none → (c.Convert raw).1 = c.GetDefaultValue)
    (herr : (c.Convert raw).2 ≠ none) : Get env key c = c.GetDefaultValue := by
  rw [Get_of_set env key raw c hset hne]
  exact hconv herr

theorem GetInt_of_numeral (w : Nat) (hw : w = 32 ∨ w = 64) (env : Env) (key raw : GoString)
    (d n : Int) (hset : env key = some raw) (hne : raw ≠ []) (hn : numeralValue raw = some n)
    (hr : inIntRange w n) : GetInt w env key d = n := by
  simp [GetInt, Get_of_set env key raw _ hset hne, IntConverter.toConverter,
    IntConverter_Convert_numeral w hw d raw n hn hr, assertInt]

theorem GetInt_of_other (w : Nat) (hw : w = 32 ∨ w = 64) (env : Env) (key raw : GoString)
    (d : Int) (hset : env key = some raw) (hne : raw ≠ [])
    (hno : ¬ ∃ n, numeralValue raw = some n ∧ inIntRange w n) : GetInt w env key d = d := by
  obtain ⟨e, he⟩ := IntConverter_Convert_other w hw d raw hno
  simp [GetInt, Get_of_set env key raw _ hset hne, IntConverter.toConverter, he, assertInt]

theorem GetInt_of_unset_or_empty (w : Nat) (env : Env) (key : GoString) (d : Int)
    (h : env key = none ∨ env key = some []) : GetInt w env key d = d := by
  simp [GetInt, Get_of_unset_or_empty env key _ h, IntConverter.toConverter,
    IntConverter.GetDefaultValue, assertInt]

theorem GetBool_of_unset_or_empty (env : Env) (key : GoString) (d : Bool)
    (h : env key = none ∨ env key = some []) : GetBool env key d = d := by
  simp [GetBool, Get_of_unset_or_empty env key _ h, BoolConverter.toConverter,
    BoolConverter.GetDefaultValue, assertBool]

theorem GetString_of_unset_or_empty (env : Env) (key d : GoString)
    (h : env key = none ∨ env key = some []) : GetString env key d = d := by
  simp [GetString, Getenv_of_unset_or_empty env key h]

theorem GetBool_of_set (env : Env) (key raw : GoString) (d : Bool) (hset : env key = some raw)
    (hne : raw ≠ []) :
    GetBool env key d =
      if raw ∈ trueLiterals then true else if raw ∈ falseLiterals then false else d := by
  by_cases ht : raw ∈ trueLiterals
  · simp [GetBool, Get_of_set env key raw _ hset hne, BoolConverter.toConverter,
      BoolConverter_Convert_true d raw ht, assertBool, ht]
  · by_cases hf : raw ∈ falseLiterals
    · simp [GetBool, Get_of_set env key raw _ hset hne, BoolConverter.toConverter,
        BoolConverter_Convert_false d raw hf, assertBool, ht, hf]
    · simp [GetBool, Get_of_set env key raw _ hset hne, BoolConverter.toConverter,
        BoolConverter_Convert_other d raw ht hf, assertBool, ht, hf]

/-! ## The claims -/

/-- C1, evaluated at a failing input: with the variable `k` set to `"x"`, the
converter `nilOnErrorConverter` (default value 7) reports an error from
`Convert`, and `Get` returns the `nil` that `Convert` returned alongside the
error, not the default value 7. -/
theorem Get_keeps_value_of_failed_Convert :
    (nilOnErrorConverter.Convert (goStr "x")).2 ≠ none ∧
    nilOnErrorConverter.GetDefaultValue = GoAny.int 7 ∧
    Get (singleEnv (goStr "k") (goStr "x")) (goStr "k") nilOnErrorConverter = GoAny.nil := by
  refine ⟨by simp [nilOnErrorConverter], rfl, ?_⟩
  rw [Get_of_set _ _ (goStr "x") _ (by simp [singleEnv]) (by decide)]
  rfl

/-- C2: when the key is unset or set to the empty string, `Get` returns the
default value of the converter and does not depend on `Convert`: a second
converter with the same default value gives the same result. -/
theorem Get_default_when_unset_or_empty (env : Env) (key : GoString) (c c' : Converter)
    (h : env key = none ∨ env key = some []) :
    Get env key c = c.GetDefaultValue ∧
      (c'.GetDefaultValue = c.GetDefaultValue → Get env key c' = Get env key c) := by
  refine ⟨Get_of_unset_or_empty env key c h, fun hd => ?_⟩
  rw [Get_of_unset_or_empty env key c h, Get_of_unset_or_empty env key c' h, hd]

theorem Get_default_when_unset_or_empty_witness :
    Get (singleEnv (goStr "k") []) (goStr "k") nilOnErrorConverter = GoAny.int 7 ∧
      Get (singleEnv (goStr "k") []) (goStr "k") lengthConverter
        = Get (singleEnv (goStr "k") []) (goStr "k") nilOnErrorConverter :=
  ⟨(Get_default_when_unset_or_empty (singleEnv (goStr "k") []) (goStr "k") nilOnErrorConverter
      lengthConverter (Or.inr (by simp [singleEnv]))).1,
   (Get_default_when_unset_or_empty (singleEnv (goStr "k") []) (goStr "k") nilOnErrorConverter
      lengthConverter (Or.inr (by simp [singleEnv]))).2 rfl⟩

/-- C3: when the key is set to a non-empty string `raw` and `Convert raw`
succeeds with the value `v` (nil error), `Get` returns exactly `v`. -/
theorem Get_value_when_Convert_succeeds (env : Env) (key raw : GoString) (c : Converter)
    (v : GoAny) (hset : env key = some raw) (hne : raw ≠ [])
    (hc : c.Convert raw = (v, none)) : Get env key c = v := by
  rw [Get_of_set env key raw c hset hne, hc]

theorem Get_value_when_Convert_succeeds_witness :
    Get (singleEnv (goStr "k") (goStr "abc")) (goStr "k") lengthConverter = GoAny.int 3 :=
  Get_value_when_Convert_succeeds (singleEnv (goStr "k") (goStr "abc")) (goStr "k") (goStr "abc")
    lengthConverter (GoAny.int 3) (by simp [singleEnv]) (by decide) rfl

/-- C4: `GetString` returns the raw value unchanged when the variable is set
to a non-empty string, and the default when it is unset or empty. -/
theorem GetString_spec (env : Env) (key d : GoString) :
    (∀ raw, env key = some raw → raw ≠ [] → GetString env key d = raw) ∧
      (env key = none ∨ env key = some [] → GetString env key d = d) := by
  refine ⟨fun raw hset hne => ?_, GetString_of_unset_or_empty env key d⟩
  simp [GetString, Getenv_of_set env key raw hset, hne]

theorem GetString_spec_witness :
    GetString (singleEnv (goStr "k") (goStr " Hello ")) (goStr "k") (goStr "world")
        = goStr " Hello " ∧
      GetString (singleEnv (goStr "k") []) (goStr "k") (goStr "hello") = goStr "hello" :=
  ⟨(GetString_spec (singleEnv (goStr "k") (goStr " Hello ")) (goStr "k") (goStr "world")).1
      (goStr " Hello ") (by simp [singleEnv]) (by decide),
   (GetString_spec (singleEnv (goStr "k") []) (goStr "k") (goStr "hello")).2
      (Or.inr (by simp [singleEnv]))⟩

/-- C5: when the key is set to a non-empty string `raw`, `GetInt` returns `n`
if `raw` is a base-10 signed integer numeral denoting an integer `n` of the
`int` range, and returns the default for every other `raw`. -/
theorem GetInt_spec (w : Nat) (hw : w = 32 ∨ w = 64) (env : Env) (key raw : GoString) (d : Int)
    (hset : env key = some raw) (hne : raw ≠ []) :
    (∀ n, numeralValue raw = some n → inIntRange w n → GetInt w env key d = n) ∧
      ((¬ ∃ n, numeralValue raw = some n ∧ inIntRange w n) → GetInt w env key d = d) :=
  ⟨fun n hn hr => GetInt_of_numeral w hw env key raw d n hset hne hn hr,
   fun hno => GetInt_of_other w hw env key raw d hset hne hno⟩

theorem GetInt_spec_witness :
    GetInt 64 (singleEnv (goStr "k") (goStr "10")) (goStr "k") 1 = 10 ∧
      GetInt 64 (singleEnv (goStr "k") (goStr "hello world")) (goStr "k") 1 = 1 ∧
      GetInt 64 (singleEnv (goStr "k") (goStr " 10")) (goStr "k") 1 = 1 ∧
      GetInt 64 (singleEnv (goStr "k") (goStr "1.0")) (goStr "k") 1 = 1 ∧
      GetInt 64 (singleEnv (goStr "k") (goStr "9223372036854775808")) (goStr "k") 1 = 1 :=
  ⟨(GetInt_spec 64 (Or.inr rfl) (singleEnv (goStr "k") (goStr "10")) (goStr "k") (goStr "10") 1
      (by simp [singleEnv]) (by decide)).1 10 (by decide) (by decide),
   (GetInt_spec 64 (Or.inr rfl) (singleEnv (goStr "k") (goStr "hello world")) (goStr "k")
      (goStr "hello world") 1 (by simp [singleEnv]) (by decide)).2
      (by rw [show numeralValue (goStr "hello world") = none by decide]; simp),
   (GetInt_spec 64 (Or.inr rfl) (singleEnv (goStr "k") (goStr " 10")) (goStr "k")
      (goStr " 10") 1 (by simp [singleEnv]) (by decide)).2
      (by rw [show numeralValue (goStr " 10") = none by decide]; simp),
   (GetInt_spec 64 (Or.inr rfl) (singleEnv (goStr "k") (goStr "1.0")) (goStr "k")
      (goStr "1.0") 1 (by simp [singleEnv]) (by decide)).2
      (by rw [show numeralValue (goStr "1.0") = none by decide]; simp),
   (GetInt_spec 64 (Or.inr rfl) (singleEnv (goStr "k") (goStr "9223372036854775808")) (goStr "k")
      (goStr "9223372036854775808") 1 (by simp [singleEnv]) (by decide)).2
      (by
        rw [show numeralValue (goStr "9223372036854775808") = some 9223372036854775808
          by decide]
        rintro ⟨n, hn, hr⟩
        simp only [Option.some.injEq] at hn
        subst hn
        exact absurd hr (by decide))⟩

/-- C6: when the key is set to a non-empty string `raw`, `GetBool` returns
true exactly when `raw` is one of the six true literals, or the default is
true and `raw` is in neither literal set; it returns false on each of the six
false literals whatever the default; and it returns the default on every
other non-empty string. -/
theorem GetBool_spec (env : Env) (key raw : GoString) (d : Bool)
    (hset : env key = some raw) (hne : raw ≠ []) :
    (GetBool env key d = true ↔
        (raw ∈ trueLiterals ∨ (d = true ∧ raw ∉ trueLiterals ∧ raw ∉ falseLiterals))) ∧
      (raw ∈ falseLiterals → GetBool env key d = false) ∧
      (raw ∉ trueLiterals → raw ∉ falseLiterals → GetBool env key d = d) := by
  rw [GetBool_of_set env key raw d hset hne]
  refine ⟨?_, ?_, ?_⟩
  · by_cases ht : raw ∈ trueLiterals
    · simp [ht]
    · by_cases hf : raw ∈ falseLiterals
      · simp [ht, hf]
      · simp [ht, hf]
  · intro hf
    simp [falseLiterals_not_true raw hf, hf]
  · intro ht hf
    simp [ht, hf]

theorem GetBool_spec_witness :
    GetBool (singleEnv (goStr "k") (goStr "False")) (goStr "k") true = false ∧
      GetBool (singleEnv (goStr "k") (goStr "Yes")) (goStr "k") false = false ∧
      GetBool (singleEnv (goStr "k") (goStr "No")) (goStr "k") true = true :=
  ⟨(GetBool_spec (singleEnv (goStr "k") (goStr "False")) (goStr "k") (goStr "False") true
      (by simp [singleEnv]) (by decide)).2.1 (by decide),
   (GetBool_spec (singleEnv (goStr "k") (goStr "Yes")) (goStr "k") (goStr "Yes") false
      (by simp [singleEnv]) (by decide)).2.2 (by decide) (by decide),
   (GetBool_spec (singleEnv (goStr "k") (goStr "No")) (goStr "k") (goStr "No") true
      (by simp [singleEnv]) (by decide)).2.2 (by decide) (by decide)⟩

/-- C7: for a key that is unset or set to the empty string, `GetString`,
`GetInt` and `GetBool` return their default; hence an environment where the
key is unset and one where it is set to `""` give the same results. -/
theorem getters_default_when_unset_or_empty (w : Nat) (env env' : Env) (key ds : GoString)
    (di : Int) (db : Bool) (h : env key = none ∨ env key = some [])
    (h' : env' key = none ∨ env' key = some []) :
    (GetString env key ds = ds ∧ GetInt w env key di = di ∧ GetBool env key db = db) ∧
      (GetString env' key ds = GetString env key ds ∧ GetInt w env' key di = GetInt w env key di ∧
        GetBool env' key db = GetBool env key db) := by
  rw [GetString_of_unset_or_empty env key ds h, GetInt_of_unset_or_empty w env key di h,
    GetBool_of_unset_or_empty env key db h, GetString_of_unset_or_empty env' key ds h',
    GetInt_of_unset_or_empty w env' key di h', GetBool_of_unset_or_empty env' key db h']
  simp

theorem getters_default_when_unset_or_empty_witness :
    (GetString (fun _ => none) (goStr "k") (goStr "hello") = goStr "hello" ∧
        GetInt 64 (fun _ => none) (goStr "k") 5 = 5 ∧
        GetBool (fun _ => none) (goStr "k") true = true) ∧
      (GetString (singleEnv (goStr "k") []) (goStr "k") (goStr "hello")
          = GetString (fun _ => none) (goStr "k") (goStr "hello") ∧
        GetInt 64 (singleEnv (goStr "k") []) (goStr "k") 5
          = GetInt 64 (fun _ => none) (goStr "k") 5 ∧
        GetBool (singleEnv (goStr "k") []) (goStr "k") true
          = GetBool (fun _ => none) (goStr "k") true) :=
  getters_default_when_unset_or_empty 64 (fun _ => none) (singleEnv (goStr "k") []) (goStr "k")
    (goStr "hello") 5 true (Or.inl rfl) (Or.inr (by simp [singleEnv]))

/-- C8: round trip.  For an integer `n` of the `int` range, when the variable
holds `Itoa n` then `GetInt` returns `n`; for a boolean `b`, when the variable
holds the string form of `b` (`"true"` or `"false"`) then `GetBool` returns
`b`; in both cases whatever the default is. -/
theorem round_trip (w : Nat) (hw : w = 32 ∨ w = 64) (env : Env) (key : GoString) (n d : Int)
    (b db : Bool) :
    (inIntRange w n → env key = some (Itoa n) → GetInt w env key d = n) ∧
      (env key = some (FormatBool b) → GetBool env key db = b) := by
  constructor
  · intro hr hset
    exact GetInt_of_numeral w hw env key (Itoa n) d n hset (Itoa_ne_nil w hw n hr)
      (numeralValue_Itoa w hw n hr) hr
  · intro hset
    obtain ⟨hne, ht, hf⟩ := FormatBool_spec b
    rw [GetBool_of_set env key (FormatBool b) db hset hne]
    cases b
    · simp [falseLiterals_not_true _ (hf rfl), hf rfl]
    · simp [ht rfl]

theorem round_trip_witness :
    GetInt 64 (singleEnv (goStr "k") (Itoa (-9223372036854775808))) (goStr "k") 1
        = -9223372036854775808 ∧
      GetBool (singleEnv (goStr "k") (FormatBool false)) (goStr "k") true = false :=
  ⟨(round_trip 64 (Or.inr rfl) (singleEnv (goStr "k") (Itoa (-9223372036854775808))) (goStr "k")
      (-9223372036854775808) 1 false true).1 (by decide) (by simp [singleEnv]),
   (round_trip 64 (Or.inr rfl) (singleEnv (goStr "k") (FormatBool false)) (goStr "k")
      0 1 false true).2 (by simp [singleEnv])⟩

/-- C9: `IntConverter.Convert` reports an error exactly when the string is
not a base-10 signed integer numeral within the `int` range, and the value it
returns with the error is the default (not the clamped result of the parse);
`BoolConverter.Convert` returns the default together with an error for every
string outside the twelve accepted literals. -/
theorem Convert_error_spec (w : Nat) (hw : w = 32 ∨ w = 64) (d : Int) (b : Bool) (s : GoString) :
    ((IntConverter.Convert w { DefaultValue := d } s).2 ≠ none ↔
        ¬ ∃ n, numeralValue s = some n ∧ inIntRange w n) ∧
      ((IntConverter.Convert w { DefaultValue := d } s).2 ≠ none →
        (IntConverter.Convert w { DefaultValue := d } s).1 = GoAny.int d) ∧
      (s ∉ trueLiterals → s ∉ falseLiterals →
        (BoolConverter.Convert { DefaultValue := b } s).1 = GoAny.bool b ∧
          (BoolConverter.Convert { DefaultValue := b } s).2 ≠ none) := by
  refine ⟨?_, ?_, ?_⟩
  · constructor
    · rintro herr ⟨n, hn, hr⟩
      rw [IntConverter_Convert_numeral w hw d s n hn hr] at herr
      exact herr rfl
    · intro hno
      obtain ⟨e, he⟩ := IntConverter_Convert_other w hw d s hno
      rw [he]; simp
  · intro herr
    by_cases hnum : ∃ n, numeralValue s = some n ∧ inIntRange w n
    · obtain ⟨n, hn, hr⟩ := hnum
      rw [IntConverter_Convert_numeral w hw d s n hn hr] at herr
      exact absurd rfl herr
    · obtain ⟨e, he⟩ := IntConverter_Convert_other w hw d s hnum
      rw [he]
  · intro ht hf
    rw [BoolConverter_Convert_other b s ht hf]
    simp

theorem Convert_error_spec_witness :
    (Atoi 64 (goStr "9223372036854775808")).1 = 9223372036854775807 ∧
      (IntConverter.Convert 64 { DefaultValue := 5 } (goStr "9223372036854775808")).1
        = GoAny.int 5 ∧
      ((BoolConverter.Convert { DefaultValue := true } (goStr "yes")).1 = GoAny.bool true ∧
        (BoolConverter.Convert { DefaultValue := true } (goStr "yes")).2 ≠ none) :=
  ⟨by decide,
   (Convert_error_spec 64 (Or.inr rfl) 5 true (goStr "9223372036854775808")).2.1
     ((Convert_error_spec 64 (Or.inr rfl) 5 true (goStr "9223372036854775808")).1.2
       (by
        rw [show numeralValue (goStr "9223372036854775808") = some 9223372036854775808
          by decide]
        rintro ⟨n, hn, hr⟩
        simp only [Option.some.injEq] at hn
        subst hn
        exact absurd hr (by decide))),
   (Convert_error_spec 64 (Or.inr rfl) 5 true (goStr "yes")).2.2 (by decide) (by decide)⟩

/-- C10: the type assertions of `GetInt` and `GetBool` never fail: `Get` with
an `IntConverter` has dynamic type `int` and `Get` with a `BoolConverter` has
dynamic type `bool`, so `ok` is true and the getters return the asserted
value; the result of `GetInt` is the default or the integer denoted by the
variable's value. -/
theorem type_assertions_succeed (w : Nat) (hw : w = 32 ∨ w = 64) (env : Env) (key : GoString)
    (d : Int) (b : Bool) :
    (∃ n, Get env key (IntConverter.toConverter w { DefaultValue := d }) = GoAny.int n ∧
        assertInt (Get env key (IntConverter.toConverter w { DefaultValue := d })) = (n, true) ∧
        GetInt w env key d = n) ∧
      (∃ v, Get env key (BoolConverter.toConverter { DefaultValue := b }) = GoAny.bool v ∧
        assertBool (Get env key (BoolConverter.toConverter { DefaultValue := b })) = (v, true) ∧
        GetBool env key b = v) ∧
      (GetInt w env key d = d ∨
        ∃ n, numeralValue (Getenv env key) = some n ∧ inIntRange w n ∧ GetInt w env key d = n) := by
  have hcase : (env key = none ∨ env key = some []) ∨ ∃ raw, env key = some raw ∧ raw ≠ [] := by
    cases h : env key with
    | none => exact Or.inl (Or.inl rfl)
    | some raw =>
      by_cases hr : raw = []
      · subst hr; exact Or.inl (Or.inr rfl)
      · exact Or.inr ⟨raw, rfl, hr⟩
  rcases hcase with h | ⟨raw, hset, hne⟩
  · refine ⟨⟨d, ?_, ?_, GetInt_of_unset_or_empty w env key d h⟩,
      ⟨b, ?_, ?_, GetBool_of_unset_or_empty env key b h⟩,
      Or.inl (GetInt_of_unset_or_empty w env key d h)⟩
    · rw [Get_of_unset_or_empty env key _ h]; rfl
    · rw [Get_of_unset_or_empty env key _ h]; rfl
    · rw [Get_of_unset_or_empty env key _ h]; rfl
    · rw [Get_of_unset_or_empty env key _ h]; rfl
  · refine ⟨?_, ?_, ?_⟩
    · by_cases hnum : ∃ n, numeralValue raw = some n ∧ inIntRange w n
      · obtain ⟨n, hn, hr⟩ := hnum
        have hc := IntConverter_Convert_numeral w hw d raw n hn hr
        have hg : Get env key (IntConverter.toConverter w { DefaultValue := d }) = GoAny.int n := by
          rw [Get_of_set env key raw _ hset hne]; simp [IntConverter.toConverter, hc]
        exact ⟨n, hg, by rw [hg]; rfl, GetInt_of_numeral w hw env key raw d n hset hne hn hr⟩
      · obtain ⟨e, hc⟩ := IntConverter_Convert_other w hw d raw hnum
        have hg : Get env key (IntConverter.toConverter w { DefaultValue := d }) = GoAny.int d := by
          rw [Get_of_set env key raw _ hset hne]; simp [IntConverter.toConverter, hc]
        exact ⟨d, hg, by rw [hg]; rfl, GetInt_of_other w hw env key raw d hset hne hnum⟩
    · have hb := GetBool_of_set env key raw b hset hne
      by_cases ht : raw ∈ trueLiterals
      · have hg : Get env key (BoolConverter.toConverter { DefaultValue := b })
            = GoAny.bool true := by
          rw [Get_of_set env key raw _ hset hne]
          simp [BoolConverter.toConverter, BoolConverter_Convert_true b raw ht]
        exact ⟨true, hg, by rw [hg]; rfl, by rw [hb]; simp [ht]⟩
      · by_cases hf : raw ∈ falseLiterals
        · have hg : Get env key (BoolConverter.toConverter { DefaultValue := b })
              = GoAny.bool false := by
            rw [Get_of_set env key raw _ hset hne]
            simp [BoolConverter.toConverter, BoolConverter_Convert_false b raw hf]
          exact ⟨false, hg, by rw [hg]; rfl, by rw [hb]; simp [ht, hf]⟩
        · have hg : Get env key (BoolConverter.toConverter { DefaultValue := b })
              = GoAny.bool b := by
            rw [Get_of_set env key raw _ hset hne]
            simp [BoolConverter.toConverter, BoolConverter_Convert_other b raw ht hf]
          exact ⟨b, hg, by rw [hg]; rfl, by rw [hb]; simp [ht, hf]⟩
    · by_cases hnum : ∃ n, numeralValue raw = some n ∧ inIntRange w n
      · obtain ⟨n, hn, hr⟩ := hnum
        right
        exact ⟨n, by rw [Getenv_of_set env key raw hset]; exact hn, hr,
          GetInt_of_numeral w hw env key raw d n hset hne hn hr⟩
      · left
        exact GetInt_of_other w hw env key raw d hset hne hnum

theorem type_assertions_succeed_witness :
    (∃ n, Get (singleEnv (goStr "k") (goStr "0x10")) (goStr "k")
          (IntConverter.toConverter 64 { DefaultValue := 3 }) = GoAny.int n ∧
        assertInt (Get (singleEnv (goStr "k") (goStr "0x10")) (goStr "k")
          (IntConverter.toConverter 64 { DefaultValue := 3 })) = (n, true) ∧
        GetInt 64 (singleEnv (goStr "k") (goStr "0x10")) (goStr "k") 3 = n) :=
  (type_assertions_succeed 64 (Or.inr rfl) (singleEnv (goStr "k") (goStr "0x10")) (goStr "k")
    3 true).1

end Osenv
